import Mathlib

/-!
Verification of the `error_snippet` graphical diagnostic renderer.

The Rust sources (`src/render/graphical.rs`, `src/render/mod.rs`, `src/lib.rs`)
are embedded shallowly:

* source text and rendered output are sequences of characters
  (`List Char` / `String`); byte indices of the Rust code become character
  indices, which coincide for ASCII inputs;
* machine integers (`usize`) become `Nat`; `saturating_sub` becomes
  truncated `Nat` subtraction, `checked_sub(..).unwrap_or_default()` likewise;
* operations that can panic in Rust (`str::split_at` with an out-of-bounds
  index) return `Option`, with `none` modelling the panic; everything else is
  total, as in the source;
* the `owo_colors` dependency is modelled by a `Style` carrying the escape
  prefix/suffix it would print; when colors are disabled (`use_colors = false`,
  which also drives `owo_colors::with_override`) styling is the identity,
  exactly as in the crate.
-/

/-- `Severity` from `src/lib.rs`. -/
inductive Severity where
  | error
  | warning
  | info
  | note
  | help
deriving DecidableEq, Repr

/-- `impl Display for Severity` from `src/lib.rs`. -/
def Severity.toStr : Severity → String
  | .error => "error"
  | .warning => "warning"
  | .info => "info"
  | .note => "note"
  | .help => "help"

/-- The `Source` capability (`name()` and `content()` accessors) consumed by
the renderer; label grouping compares sources by `name` only. -/
structure Src where
  name : Option String
  content : List Char
deriving DecidableEq, Repr

/-- `Label` from `src/lib.rs`: message, optional source, byte range, optional
severity.  The `SpanRange` is the pair (start, end) of a half-open interval. -/
structure Label where
  message : String
  source : Option Src
  range : Nat × Nat
  severity : Option Severity
deriving DecidableEq, Repr

/-- `SourceRange` from `src/lib.rs` (source plus span). -/
structure SourceRange where
  source : Src
  span : Nat × Nat
deriving DecidableEq, Repr

/-- `SourceLocation` from `src/lib.rs` (source plus offset). -/
structure SourceLocation where
  source : Src
  offset : Nat
deriving DecidableEq, Repr

/-- `Suggestion` from `src/lib.rs`. -/
inductive Suggestion where
  | deletion (range : SourceRange)
  | insertion (location : SourceLocation) (value : String)
  | replacement (range : SourceRange) (replacement : String)
deriving DecidableEq, Repr

/-- `Suggestion::source` from `src/lib.rs`. -/
def Suggestion.source : Suggestion → Src
  | .deletion range => range.source
  | .insertion location _ => location.source
  | .replacement range _ => range.source

/-- `Suggestion::span` from `src/lib.rs`: insertions produce a width-1 span. -/
def Suggestion.span : Suggestion → Nat × Nat
  | .replacement range _ => range.span
  | .deletion range => range.span
  | .insertion location _ => (location.offset, location.offset + 1)

/-- `Help` from `src/lib.rs`. -/
structure Help where
  message : String
  suggestions : List Suggestion
deriving DecidableEq, Repr

/-- The `Diagnostic` trait surface consumed by the renderer
(`message` / `severity` / `code` / `source_code` / `labels` / `causes` /
`related` / `help`), as a tree. -/
inductive Diag where
  | mk (message : String) (severity : Severity) (code : Option String)
      (source_code : Option Src) (labels : Option (List Label))
      (causes : List Diag) (related : List Diag) (help : Option (List Help))

def Diag.message : Diag → String
  | .mk m _ _ _ _ _ _ _ => m

def Diag.severity : Diag → Severity
  | .mk _ s _ _ _ _ _ _ => s

def Diag.code : Diag → Option String
  | .mk _ _ c _ _ _ _ _ => c

def Diag.source_code : Diag → Option Src
  | .mk _ _ _ s _ _ _ _ => s

def Diag.labels : Diag → Option (List Label)
  | .mk _ _ _ _ l _ _ _ => l

def Diag.causes : Diag → List Diag
  | .mk _ _ _ _ _ c _ _ => c

def Diag.related : Diag → List Diag
  | .mk _ _ _ _ _ _ r _ => r

def Diag.help : Diag → Option (List Help)
  | .mk _ _ _ _ _ _ _ h => h

/-! ## Rust string primitives -/

/-- `str::lines` strips one trailing `'\r'` from each line. -/
def dropTrailingCR (l : List Char) : List Char :=
  if l.getLast? = some '\r' then l.dropLast else l

/-- Rust `str::lines`: split on `'\n'`, a trailing newline produces no extra
empty line, each line loses one trailing `'\r'`.  The empty string has no
lines. -/
def rustLines (s : List Char) : List (List Char) :=
  match s with
  | [] => []
  | _ =>
    let parts := s.splitOn '\n'
    let parts := if s.getLast? = some '\n' then parts.dropLast else parts
    parts.map dropTrailingCR

example : rustLines "let a = 1;".data = ["let a = 1;".data] := by decide
example : rustLines "a\nb\n".data = ["a".data, "b".data] := by decide
example : rustLines "\n".data = [([] : List Char)] := by decide
example : rustLines [] = [] := by decide
example : rustLines "a\r\nb".data = ["a".data, "b".data] := by decide

/-- `Coord` from `src/render/graphical.rs` (zero-indexed line/column).
`Coord::default()` is `⟨0, 0⟩`. -/
structure Coord where
  line : Nat
  column : Nat
deriving DecidableEq, Repr

/-- Render-internal `Span` (`start`/`end` coordinates); Rust's `end` field is
called `stop` because `end` is a Lean keyword. -/
structure Span where
  start : Coord
  stop : Coord
deriving DecidableEq, Repr

/-- `Span::columns` from `src/render/graphical.rs`: the half-open column range
of a single-line span; an inverted span yields the width-1 range at the start
column. -/
def Span.columns (s : Span) : Nat × Nat :=
  if s.start.column > s.stop.column then (s.start.column, s.start.column + 1)
  else (s.start.column, s.stop.column)

/-- `Span::is_multiline` from `src/render/graphical.rs`. -/
def Span.isMultiline (s : Span) : Bool :=
  s.start.line ≠ s.stop.line

/-- The character-scanning loop inside `coords_of_idx`: `i` is the enumeration
index, `len` the total length; after the loop Rust checks `index == str.len()`
and otherwise returns `Coord::default()`. -/
def coordsOfIdxGo (len index : Nat) : List Char → Nat → Nat → Nat → Coord
  | [], _, line, column => if index = len then ⟨line, column⟩ else ⟨0, 0⟩
  | c :: rest, i, line, column =>
    if i = index then ⟨line, column⟩
    else if c = '\n' then coordsOfIdxGo len index rest (i + 1) (line + 1) 0
    else coordsOfIdxGo len index rest (i + 1) line (column + 1)

/-- `coords_of_idx` from `src/render/graphical.rs`. -/
def coords_of_idx (s : List Char) (index : Nat) : Coord :=
  if index > s.length then
    { line := (rustLines s).length - 1
      column := (((rustLines s).getLast?).map List.length).getD 0 }
  else coordsOfIdxGo s.length index s 0 0 0

-- the repository's own `coords_of_idx_tests`
example : coords_of_idx "let a = 1;".data 12 = ⟨0, 10⟩ := by decide
example : coords_of_idx "let a = 1;".data 10 = ⟨0, 10⟩ := by decide
example :
    coords_of_idx "let a = 1;\nlet b = 2;\nlet c = a + b;\nlet d = c * 2;\nlet e = (d + 3) * 2;".data 26
      = ⟨2, 4⟩ := by decide
example :
    coords_of_idx "let a = 1;\nlet b = 2;\nlet c = a + b;\nlet d = c * 2;\nlet e = (d + 3) * 2;".data 22
      = ⟨2, 0⟩ := by decide
example :
    coords_of_idx "let a = 1;\nlet b = 2;\nlet c = a + b;\nlet d = c * 2;\nlet e = (d + 3) * 2;".data 36
      = ⟨2, 14⟩ := by decide

/-- `coords_of_span` from `src/render/graphical.rs`: both endpoints are mapped
independently. -/
def coords_of_span (s : List Char) (range : Nat × Nat) : Span :=
  { start := coords_of_idx s range.1, stop := coords_of_idx s range.2 }

/-! ## Context extractor -/

/-- The per-line byte spans built at the top of `extract_with_context_offset`:
each line occupies `[start, start + len)` and the next line starts at
`start + len + 1` (UNIX newlines assumed, as the source comments note). -/
def lineSpansGo (start : Nat) : List (List Char) → List (Nat × Nat)
  | [] => []
  | l :: ls => (start, start + l.length) :: lineSpansGo (start + l.length + 1) ls

def lineSpans (input : List Char) : List (Nat × Nat) :=
  lineSpansGo 0 (rustLines input)

/-- The indices of the lines whose span intersects `range`
(`span.end > range.start && span.start < range.end`). -/
def matchingLines (input : List Char) (range : Nat × Nat) : List Nat :=
  ((lineSpans input).enum.filter fun p => p.2.2 > range.1 && p.2.1 < range.2).map Prod.fst

/-- `extract_with_context_offset` from `src/render/graphical.rs`. -/
def extract_with_context_offset (input : List Char) (range : Nat × Nat)
    (context_lines : Nat) : List Char × Nat :=
  let line_spans := lineSpans input
  match matchingLines input range with
  | [] =>
    -- fallback: the first context window of the string
    let last_line_span := (line_spans.get? (context_lines * 2 + 1)).orElse
      fun _ => line_spans.getLast?
    let last_line_idx := (last_line_span.map Prod.snd).getD 0
    (input.take last_line_idx, context_lines)
  | first_matching_line :: restm =>
    let lastm := ((first_matching_line :: restm).getLast?).getD 0
    let first_match := first_matching_line - context_lines
    let last_match := min (lastm + context_lines) (line_spans.length - 1)
    let start_byte := ((line_spans.get? first_match).map Prod.fst).getD 0
    let end_byte := ((line_spans.get? last_match).map Prod.snd).getD 0
    ((input.drop start_byte).take (end_byte - start_byte), first_matching_line)

/-- `extract_with_context` from `src/render/graphical.rs`. -/
def extract_with_context (input : List Char) (range : Nat × Nat)
    (context_lines : Nat) : List Char :=
  (extract_with_context_offset input range context_lines).1

-- the repository's own `extract_with_context_offset_tests`
example :
    extract_with_context_offset
      "let a = 1;\nlet b = 2;\nlet c = a + b;\nlet d = c * 2;\nlet e = (d + 3) * 2;".data
      (30, 35) 1
      = ("let b = 2;\nlet c = a + b;\nlet d = c * 2;".data, 2) := by decide
example :
    extract_with_context_offset
      "let a = 1;\nlet b = 2;\nlet c = a + b;\nlet d = c * 2;\nlet e = (d + 3) * 2;".data
      (30, 35) 0
      = ("let c = a + b;".data, 2) := by decide
example :
    extract_with_context_offset
      "let a = 1;\nlet b = 2;\nlet c = a + b;\nlet d = c * 2;\nlet e = (d + 3) * 2;".data
      (0, 10) 2
      = ("let a = 1;\nlet b = 2;\nlet c = a + b;".data, 0) := by decide
example :
    extract_with_context_offset
      "let a = 1;\nlet b = 2;\nlet c = a + b;\nlet d = c * 2;\nlet e = (d + 3) * 2;".data
      (60, 71) 2
      = ("let c = a + b;\nlet d = c * 2;\nlet e = (d + 3) * 2;".data, 4) := by decide
example :
    extract_with_context_offset
      "let a = 1;\nlet b = 2;\nlet c = a + b;\nlet d = c * 2;\nlet e = (d + 3) * 2;".data
      (22, 36) 1
      = ("let b = 2;\nlet c = a + b;\nlet d = c * 2;".data, 2) := by decide
example :
    extract_with_context_offset
      "let a = 1;\nlet b = 2;\nlet c = a + b;\nlet d = c * 2;\nlet e = (d + 3) * 2;".data
      (4, 9) 1
      = ("let a = 1;\nlet b = 2;".data, 0) := by decide
example :
    extract_with_context_offset
      "let a = 1;\nlet b = 2;\nlet c = a + b;\nlet d = c * 2;\nlet e = (d + 3) * 2;".data
      (64, 75) 1
      = ("let d = c * 2;\nlet e = (d + 3) * 2;".data, 4) := by decide

/-! ## Styles and styled text -/

/-- The `owo_colors::Style` dependency, modelled by the escape sequences it
prints around a value (`Style::new()` prints nothing). -/
structure Style where
  pre : String
  post : String
deriving DecidableEq, Repr

def Style.new : Style := ⟨"", ""⟩

/-- An RGB foreground style as built by `ThemeStyle::rgb` via `owo_colors`. -/
def rgbStyle (r g b : Nat) (bold : Bool) : Style :=
  { pre := "\x1b[38;2;" ++ Nat.repr r ++ ";" ++ Nat.repr g ++ ";" ++ Nat.repr b ++ "m"
      ++ (if bold then "\x1b[1m" else "")
    post := "\x1b[0m" }

/-- An ANSI color-code style as built by `ThemeStyle::ansi` via `owo_colors`. -/
def ansiStyle (code : Nat) (bold : Bool) : Style :=
  { pre := "\x1b[" ++ Nat.repr code ++ "m" ++ (if bold then "\x1b[1m" else "")
    post := "\x1b[0m" }

/-- `str_set_char` from `src/render/graphical.rs`: replace the character at a
character offset, reporting whether the offset was in bounds. -/
def str_set_char (s : List Char) (offset : Nat) (c : Char) : List Char × Bool :=
  if offset < s.length then (s.set offset c, true) else (s, false)

/-- Rust `str::split_at`; panics (here: `none`) when the index exceeds the
length. -/
def rustSplitAt (s : List Char) (i : Nat) : Option (List Char × List Char) :=
  if i ≤ s.length then some (s.take i, s.drop i) else none

/-- `split_str_at` from `src/render/graphical.rs`, at the only shape it is
used with (`N = 3`, two indices): the indices are sorted, then the string is
split at each from the right. -/
def split_str_at (s : List Char) (i j : Nat) :
    Option (List Char × List Char × List Char) := do
  let a := min i j
  let b := max i j
  let (before1, after1) ← rustSplitAt s b
  let (before0, after0) ← rustSplitAt before1 a
  pure (before0, after0, after1)

/-- `StyledText` from `src/render/graphical.rs`: a string paired with one
style per character. -/
structure StyledText where
  str : List Char
  chars : List Style
deriving DecidableEq, Repr

/-- `StyledText::new`: one default style per character. -/
def StyledText.new (s : List Char) : StyledText :=
  ⟨s, List.replicate s.length Style.new⟩

/-- `StyledText::append`. -/
def StyledText.append (t : StyledText) (s : List Char) (style : Style) : StyledText :=
  ⟨t.str ++ s, t.chars ++ List.replicate s.length style⟩

/-- `StyledText::style_span`: styling stops at the end of the array
(`get_mut` failing breaks the loop, so out-of-range indices are ignored). -/
def StyledText.styleSpan (t : StyledText) (span : Nat × Nat) (style : Style) : StyledText :=
  ⟨t.str, (List.range' span.1 (span.2 - span.1)).foldl (fun cs idx => cs.set idx style) t.chars⟩

/-- `StyledText::render` / `Display`: each character styled individually;
`useColors` reflects `owo_colors::with_override`, under which an override of
`false` prints every value unstyled. -/
def StyledText.render (t : StyledText) (useColors : Bool) : String :=
  String.join ((t.str.zip t.chars).map fun p =>
    if useColors then p.2.pre ++ String.singleton p.1 ++ p.2.post
    else String.singleton p.1)

/-! ## Theme and renderer configuration -/

/-- `ThemeStyle` from `src/render/graphical.rs`. -/
structure ThemeStyle where
  error : Style
  warning : Style
  info : Style
  note : Style
  help : Style
  deletion : Style
  insertion : Style
  link : Style
  gutter : Style
deriving DecidableEq, Repr

/-- `ThemeStyle::rgb`. -/
def ThemeStyle.rgb : ThemeStyle :=
  { error := rgbStyle 233 114 99 true
    warning := rgbStyle 235 191 131 true
    info := rgbStyle 114 159 207 false
    note := rgbStyle 166 227 161 false
    help := rgbStyle 171 161 247 false
    deletion := rgbStyle 233 114 99 false
    insertion := rgbStyle 166 227 161 false
    link := rgbStyle 166 173 200 false
    gutter := rgbStyle 156 156 192 false }

/-- `ThemeStyle::from_severity`. -/
def ThemeStyle.from_severity (t : ThemeStyle) : Severity → Style
  | .error => t.error
  | .warning => t.warning
  | .info => t.info
  | .note => t.note
  | .help => t.help

/-- `ThemeSymbols` from `src/render/graphical.rs`. -/
structure ThemeSymbols where
  error : String
  warning : String
  info : String
  note : String
  help : String
deriving DecidableEq, Repr

/-- `ThemeSymbols::unicode`. -/
def ThemeSymbols.unicode : ThemeSymbols :=
  { error := "×", warning := "⚠", info := "☞", note := "☞", help := "☞" }

/-- `ThemeSymbols::from_severity`. -/
def ThemeSymbols.from_severity (t : ThemeSymbols) : Severity → String
  | .error => t.error
  | .warning => t.warning
  | .info => t.info
  | .note => t.note
  | .help => t.help

/-- `ArrowSymbols` from `src/render/graphical.rs`. -/
structure ArrowSymbols where
  hbar : Char
  hbot : Char
  vertical : Char
  vertical_break : Char
  top_left : Char
  bottom_left : Char
  horizontal_right : Char
  arrow_up : Char
  arrow_right : Char
deriving DecidableEq, Repr

/-- `ArrowSymbols::unicode`. -/
def ArrowSymbols.unicode : ArrowSymbols :=
  { hbar := '─', hbot := '┬', vertical := '│', vertical_break := '∶'
    top_left := '╭', bottom_left := '╰', horizontal_right := '├'
    arrow_up := '^', arrow_right := '▶' }

/-- `Theme` from `src/render/graphical.rs`. -/
structure Theme where
  style : ThemeStyle
  symbols : ThemeSymbols
  arrows : ArrowSymbols
deriving DecidableEq, Repr

/-- `Theme::fancy`. -/
def Theme.fancy : Theme :=
  { style := ThemeStyle.rgb, symbols := ThemeSymbols.unicode, arrows := ArrowSymbols.unicode }

/-- `GraphicalRenderer` from `src/render/graphical.rs`.  `current_indent` is
the only mutable state. -/
structure GraphicalRenderer where
  theme : Theme
  width : Nat
  padding : Nat
  gutter_margin : Nat
  context_lines : Nat
  use_colors : Bool
  highlight_source : Bool
  current_indent : Nat
deriving DecidableEq, Repr

/-- `GraphicalRenderer::new` (without the `termsize` feature the width is the
default 80). -/
def GraphicalRenderer.new : GraphicalRenderer :=
  { theme := Theme.fancy, width := 80, padding := 6, gutter_margin := 2
    context_lines := 1, use_colors := true, highlight_source := false
    current_indent := 0 }

/-- `GraphicalRenderer::ident`. -/
def GraphicalRenderer.ident (r : GraphicalRenderer) : Nat :=
  r.current_indent * r.padding

def spaces (n : Nat) : String :=
  String.mk (List.replicate n ' ')

/-- `GraphicalRenderer::write_ident`. -/
def GraphicalRenderer.writeIdent (r : GraphicalRenderer) : String :=
  spaces r.ident

/-- `GraphicalRenderer::style` combined with the `owo_colors::with_override`
wrapper installed by `render_diagnostic`: with colors disabled every value is
printed unstyled. -/
def GraphicalRenderer.sty (r : GraphicalRenderer) (s : String) (style : Style) : String :=
  if r.use_colors then style.pre ++ s ++ style.post else s

def GraphicalRenderer.styChar (r : GraphicalRenderer) (c : Char) (style : Style) : String :=
  r.sty (String.singleton c) style

/-- Rust `{:^width$}` center padding: the extra space goes to the right. -/
def centerPad (s : String) (width : Nat) : String :=
  let pad := width - s.length
  spaces (pad / 2) ++ s ++ spaces ((pad + 1) / 2)

/-- `GraphicalRenderer::gutter_size_of`: digits of the line count plus the
gutter margin. -/
def GraphicalRenderer.gutter_size_of (r : GraphicalRenderer) (source : List Char) : Nat :=
  (Nat.repr (rustLines source).length).length + r.gutter_margin

/-! ## Label grouping -/

/-- Render-internal `LabelContext`: a parent label, its child labels, and the
common source. -/
structure LabelContext where
  parent : Label
  children : List Label
  source : Src
deriving DecidableEq, Repr

/-- `LabelContext::max_span`: from the parent's start to the maximum of the
parent's end and the children's ends (`max().unwrap_or(0)` for the
children). -/
def LabelContext.max_span (c : LabelContext) : Nat × Nat :=
  let start := c.parent.range.1
  let e := (c.children.map fun ch => ch.range.2).foldl max 0
  (start, max e c.parent.range.2)

/-- Render-internal `LabelGroup`: labels sharing one resolved source. -/
structure LabelGroup where
  labels : List Label
  source : Src
deriving DecidableEq, Repr

/-- A stable insertion sort: `le y x = true` keeps `y` in front of `x`, so
elements that compare equal keep their input order. Used to model both
`slice::sort` (stable) and `sort_unstable_by_key` (whose output is *some*
order sorted by the key; the invariant proofs below hold for the walk applied
to any input order). -/
def insertSorted (le : α → α → Bool) (x : α) : List α → List α
  | [] => [x]
  | y :: ys => if le y x then y :: insertSorted le x ys else x :: y :: ys

def stableSortBy (le : α → α → Bool) (l : List α) : List α :=
  l.foldl (fun acc x => insertSorted le x acc) []

example : stableSortBy (fun a b => a ≤ b) [3, 1, 2, 1] = [1, 1, 2, 3] := by decide

/-- A `LabelContext` instrumented with the positions (indices into the sorted
label vector) that `group_overlapping_labels` works with: the Rust code
enumerates the sorted vector and tracks visited indices in a `HashSet`. -/
structure IdxLabelContext where
  parentIdx : Nat
  parent : Label
  children : List (Nat × Label)
  source : Src
deriving DecidableEq, Repr

/-- The inner scan of `group_overlapping_labels`: walk the labels after the
parent; attach an unvisited label whose effective source has the parent's
source name and whose start offset lies in `[parentStart, parentEnd)`,
marking it visited. -/
def golChildScan (diag_source : Option Src) (parent_source : Src)
    (parent_span : Nat × Nat) : List (Nat × Label) → List Nat →
    List (Nat × Label) × List Nat
  | [], visited => ([], visited)
  | p :: rest, visited =>
    match p.2.source.orElse fun _ => diag_source with
    | none => golChildScan diag_source parent_source parent_span rest visited
    | some child_source =>
      if child_source.name ≠ parent_source.name then
        golChildScan diag_source parent_source parent_span rest visited
      else if parent_span.1 ≤ p.2.range.1 ∧ p.2.range.1 < parent_span.2 ∧ p.1 ∉ visited then
        let res := golChildScan diag_source parent_source parent_span rest (p.1 :: visited)
        (p :: res.1, res.2)
      else golChildScan diag_source parent_source parent_span rest visited

/-- The outer loop of `group_overlapping_labels` over the enumerated, sorted
label vector: resolve the parent's source (skipping the label entirely when
none is found), skip visited indices, emit single-line parents as standalone
contexts, and scan the remaining labels for children of multi-line parents. -/
def golLoop (diag_source : Option Src) :
    List (Nat × Label) → List Nat → List IdxLabelContext
  | [], _ => []
  | p :: rest, visited =>
    match p.2.source.orElse fun _ => diag_source with
    | none => golLoop diag_source rest visited
    | some parent_source =>
      if p.1 ∈ visited then golLoop diag_source rest visited
      else
        let visited := p.1 :: visited
        let parent_span := p.2.range
        if ¬(coords_of_span parent_source.content parent_span).isMultiline then
          ⟨p.1, p.2, [], parent_source⟩ :: golLoop diag_source rest visited
        else
          let scanned := golChildScan diag_source parent_source parent_span rest visited
          ⟨p.1, p.2, scanned.1, parent_source⟩ :: golLoop diag_source rest scanned.2

/-- `GraphicalRenderer::group_overlapping_labels`, keeping the indices of the
sorted vector alongside each emitted context. -/
def group_overlapping_labels_idx (diag_source : Option Src) (labels : List Label) :
    List IdxLabelContext :=
  let sorted := stableSortBy (fun a b => a.range.1 ≤ b.range.1) labels
  golLoop diag_source sorted.enum []

/-- `GraphicalRenderer::group_overlapping_labels` as in the source (the Rust
contexts do not retain indices). -/
def group_overlapping_labels (diag_source : Option Src) (labels : List Label) :
    List LabelContext :=
  (group_overlapping_labels_idx diag_source labels).map fun c =>
    ⟨c.parent, c.children.map Prod.snd, c.source⟩

/-! ## Snippet chrome -/

/-- `GraphicalRenderer::render_snippet_gutter`: indentation, the gutter value
centered in the padding, the bar and one space. -/
def render_snippet_gutter (r : GraphicalRenderer) (padding : Nat) (gutter : String)
    (bar : String) : String :=
  r.writeIdent ++ centerPad gutter padding ++ bar ++ " "

/-- `GraphicalRenderer::render_snippet_line_gutter`: the line number is styled
with the gutter style; the `owo_colors` `Styled` display hands the formatter
through to the number, so the centering applies to the digits inside the
escape codes. -/
def render_snippet_line_gutter (r : GraphicalRenderer) (padding line_num : Nat) : String :=
  r.writeIdent
    ++ (if r.use_colors then
          r.theme.style.gutter.pre ++ centerPad (Nat.repr line_num) padding
            ++ r.theme.style.gutter.post
        else centerPad (Nat.repr line_num) padding)
    ++ String.singleton r.theme.arrows.vertical ++ " "

/-- `GraphicalRenderer::render_snippet_line_empty_gutter`. -/
def render_snippet_line_empty_gutter (r : GraphicalRenderer) (padding : Nat) : String :=
  render_snippet_gutter r padding "" (String.singleton r.theme.arrows.vertical)

/-- `GraphicalRenderer::render_snippet_line`. -/
def render_snippet_line (r : GraphicalRenderer) (padding : Nat) (line : String)
    (line_num : Nat) : String :=
  render_snippet_line_gutter r padding line_num ++ line ++ "\n"

/-- `GraphicalRenderer::render_snippet_break`. -/
def render_snippet_break (r : GraphicalRenderer) (padding : Nat) : String :=
  render_snippet_gutter r padding "" (String.singleton r.theme.arrows.vertical_break)

/-- `GraphicalRenderer::render_snippet_breakln`. -/
def render_snippet_breakln (r : GraphicalRenderer) (padding : Nat) : String :=
  render_snippet_break r padding ++ "\n"

/-- `GraphicalRenderer::render_snippet_footer`. -/
def render_snippet_footer (r : GraphicalRenderer) (padding : Nat) : String :=
  r.writeIdent ++ spaces padding ++ String.singleton r.theme.arrows.bottom_left
    ++ String.mk (List.replicate 2 r.theme.arrows.hbar) ++ "\n"

/-- `GraphicalRenderer::render_source_path` (`line` arrives already
1-based, the column is printed 1-based). -/
def render_source_path (r : GraphicalRenderer) (name : String) (line column : Nat) : String :=
  "[" ++ r.sty name r.theme.style.link ++ ":" ++ Nat.repr line ++ ":"
    ++ Nat.repr (column + 1) ++ "]\n"

/-- `GraphicalRenderer::render_snippet_header`. -/
def render_snippet_header (r : GraphicalRenderer) (name : Option String) (padding : Nat)
    (line column : Nat) : String :=
  r.writeIdent ++ spaces padding ++ String.singleton r.theme.arrows.top_left
    ++ String.singleton r.theme.arrows.hbar
    ++ (match name with
        | some n => render_source_path r n (line + 1) column
        | none => String.mk (List.replicate 10 r.theme.arrows.hbar) ++ "\n")

/-- `GraphicalRenderer::render_header`. -/
def render_header (r : GraphicalRenderer) (d : Diag) : String :=
  let severity_style := r.theme.style.from_severity d.severity
  r.writeIdent
    ++ r.sty (r.theme.symbols.from_severity d.severity) severity_style ++ " "
    ++ r.sty d.severity.toStr severity_style
    ++ (match d.code with
        | some code => r.sty ("[" ++ code ++ "]") severity_style
        | none => "")
    ++ ": " ++ d.message ++ "\n"

/-! ## Underlines and per-line labels -/

/-- The character drawn at `offset` of the underline row: `^` for a lone
label, else `┬` at the last column of the span and `─` elsewhere. -/
def underlineChar (arrows : ArrowSymbols) (render_single_line : Bool)
    (cols : Nat × Nat) (offset : Nat) : Char :=
  if render_single_line then arrows.arrow_up
  else if offset = cols.2 - 1 then arrows.hbot
  else arrows.hbar

/-- The underline `StyledText` built by `render_line_labels`: a row of spaces
sized by the largest end column (`max().unwrap_or_default()`), each span's
columns overwritten and styled, and for a lone label the message appended. -/
def renderLineLabelsUnderline (r : GraphicalRenderer) (severity : Severity)
    (labels : List (Label × Span)) (render_single_line : Bool) : StyledText :=
  let underline_len := (labels.map fun p => p.2.stop.column).foldl max 0
  labels.foldl
    (fun u p =>
      let style := r.theme.style.from_severity (p.1.severity.getD severity)
      let cols := p.2.columns
      let u := { u with
        str := (List.range' cols.1 (cols.2 - cols.1)).foldl
          (fun s offset =>
            (str_set_char s offset (underlineChar r.theme.arrows render_single_line cols offset)).1)
          u.str }
      let u := u.styleSpan cols style
      if render_single_line then u.append (" " ++ p.1.message).data style else u)
    (StyledText.new (List.replicate underline_len ' '))

/-- Rust `vec[i] = ...` on a list (all uses below are in bounds). -/
def listModify (l : List α) (i : Nat) (f : α → α) : List α :=
  match l, i with
  | [], _ => []
  | x :: xs, 0 => f x :: xs
  | x :: xs, n + 1 => x :: listModify xs n f

/-- The elbow rows built by `render_line_labels` when several labels share a
line: row `idx` gets its elbow (`╰──`) and message, and every earlier row gets
a vertical connector at this label's last column. -/
def renderLineLabelsTextLines (r : GraphicalRenderer) (severity : Severity)
    (labels : List (Label × Span)) : List StyledText :=
  let init := labels.map fun p => StyledText.new (List.replicate (p.2.stop.column + 1) ' ')
  (labels.enum).foldl
    (fun acc q =>
      let idx := q.1
      let label := q.2.1
      let span := q.2.2
      let style := r.theme.style.from_severity (label.severity.getD severity)
      let last_column := span.stop.column - 1
      let acc := (List.range idx).foldl
        (fun acc2 line_idx =>
          listModify acc2 line_idx fun t =>
            let t := { t with str := (str_set_char t.str last_column r.theme.arrows.vertical).1 }
            t.styleSpan (last_column, span.stop.column) style)
        acc
      listModify acc idx fun t =>
        let t := { t with str := (str_set_char t.str last_column r.theme.arrows.bottom_left).1 }
        let t := { t with str := (str_set_char t.str span.stop.column r.theme.arrows.hbar).1 }
        let t := { t with str := (str_set_char t.str (span.stop.column + 1) r.theme.arrows.hbar).1 }
        let t := t.styleSpan (last_column, span.stop.column + 1) style
        let t := t.append " ".data style
        t.append label.message.data style)
    init

/-- `GraphicalRenderer::render_line_labels`. -/
def render_line_labels (r : GraphicalRenderer) (severity : Severity)
    (labels : List (Label × Span)) (gutter_size : Nat) (is_multiline : Bool) : String :=
  match labels with
  | [] => ""
  | _ =>
    let render_single_line := labels.length = 1
    let style := r.theme.style.from_severity severity
    let mlBar := if is_multiline then r.styChar r.theme.arrows.vertical style ++ "   " else ""
    let underline := renderLineLabelsUnderline r severity labels render_single_line
    let underlineOut := if r.use_colors then underline.render true else String.mk underline.str
    let head := render_snippet_break r gutter_size ++ mlBar ++ underlineOut ++ "\n"
    if render_single_line then head
    else
      head ++ String.join ((renderLineLabelsTextLines r severity labels).map fun t =>
        render_snippet_break r gutter_size ++ mlBar
          ++ (if r.use_colors then t.render true else String.mk t.str) ++ "\n")

/-! ## Label contexts and groups -/

/-- `GraphicalRenderer::render_label_context`. -/
def render_label_context (r : GraphicalRenderer) (context : LabelContext)
    (severity : Severity) : String :=
  let source_content := context.source.content
  let gutter_size := r.gutter_size_of source_content
  let joined_span := context.max_span
  let span := coords_of_span source_content joined_span
  let style := r.theme.style.from_severity severity
  let arrows := r.theme.arrows
  let content := extract_with_context source_content joined_span r.context_lines
  let lines := rustLines content
  let line_count := lines.length
  let labels := context.children.map fun l => (l, coords_of_span source_content l.range)
  let body := String.join ((lines.enum).map fun q =>
    let idx := q.1
    let line := q.2
    let line_num := span.start.line - r.context_lines + idx + 1
    let line_labels := stableSortBy (fun a b => b.2.start.column ≤ a.2.start.column)
      (labels.filter fun p =>
        (!p.2.isMultiline) && (p.2.start.line == span.start.line + idx))
    let gutterOut := render_snippet_line_gutter r gutter_size line_num
    let mlArrow :=
      if span.isMultiline then
        if idx = 0 then
          r.styChar arrows.top_left style ++ r.styChar arrows.hbar style
            ++ r.styChar arrows.arrow_right style ++ " "
        else if idx = line_count - 1 then
          r.styChar arrows.horizontal_right style ++ r.styChar arrows.hbar style
            ++ r.styChar arrows.arrow_right style ++ " "
        else r.styChar arrows.vertical style ++ "   "
      else ""
    let lineOut :=
      if r.highlight_source then
        let style_line := StyledText.new line
        let style_line := line_labels.foldl
          (fun sl p =>
            sl.styleSpan (p.2.start.column, p.2.stop.column)
              (r.theme.style.from_severity (p.1.severity.getD severity)))
          style_line
        let style_line :=
          if ¬span.isMultiline ∧ line_num - 1 = span.start.line ∧ line_labels = [] then
            style_line.styleSpan (span.start.column, span.stop.column)
              (r.theme.style.from_severity (context.parent.severity.getD severity))
          else style_line
        style_line.render r.use_colors ++ "\n"
      else String.mk line ++ "\n"
    let below :=
      if ¬span.isMultiline ∧ line_num - 1 = span.start.line ∧ line_labels = [] then
        render_line_labels r severity [(context.parent, span)] gutter_size false
      else render_line_labels r severity line_labels gutter_size true
    gutterOut ++ mlArrow ++ lineOut ++ below)
  let tail :=
    if span.isMultiline then
      render_snippet_break r gutter_size ++ r.styChar arrows.vertical style ++ "\n"
        ++ render_snippet_line_empty_gutter r gutter_size
        ++ r.styChar arrows.bottom_left style ++ " " ++ r.sty context.parent.message style ++ "\n"
    else ""
  body ++ tail

/-- `GraphicalRenderer::render_label_group`. -/
def render_label_group (r : GraphicalRenderer) (group : LabelGroup)
    (severity : Severity) : String :=
  match group.labels with
  | [] => ""
  | first_label :: _ =>
    let source := group.source
    let source_content := source.content
    let gutter_size := r.gutter_size_of source_content
    let span := coords_of_span source_content first_label.range
    let header := render_snippet_header r source.name gutter_size span.start.line span.start.column
    let contexts := group_overlapping_labels (some source) group.labels
    let count := contexts.length
    let bodies := String.join ((contexts.enum).map fun q =>
      render_label_context r q.2 severity
        ++ (if q.1 < count - 1 then render_snippet_breakln r gutter_size else ""))
    header ++ bodies ++ render_snippet_footer r gutter_size

/-! ## Suggestion rendering -/

/-- The discriminant order of the derived `Ord` on `Suggestion`
(`Deletion < Insertion < Replacement`). -/
def Suggestion.discr : Suggestion → Nat
  | .deletion _ => 0
  | .insertion _ _ => 1
  | .replacement _ _ => 2

/-- The derived `Ord::cmp` on `Suggestion`: variant order first, then fields
in declaration order; `SourceRange` and `SourceLocation` have hand-written
`Ord`s comparing only the span start / the offset. -/
def suggestionCmp (a b : Suggestion) : Ordering :=
  match a, b with
  | .deletion ra, .deletion rb => compare ra.span.1 rb.span.1
  | .insertion la va, .insertion lb vb => (compare la.offset lb.offset).then (compare va vb)
  | .replacement ra sa, .replacement rb sb =>
    (compare ra.span.1 rb.span.1).then (compare sa sb)
  | x, y => compare x.discr y.discr

def suggestionLE (a b : Suggestion) : Bool :=
  match suggestionCmp a b with
  | .gt => false
  | _ => true

/-- `GraphicalRenderer::style_suggestion_line`: splice one suggestion into the
displayed line; the `str::split_at` calls panic (`none`) when an index
exceeds the line length. -/
def style_suggestion_line (r : GraphicalRenderer) (suggestion : Suggestion)
    (line : String) (span : Span) : Option String :=
  let l := line.data
  let sp : Nat × Nat :=
    if span.isMultiline then (span.start.column, l.length)
    else (span.start.column, span.stop.column)
  match suggestion with
  | .deletion _ => do
    let parts ← split_str_at l sp.1 sp.2
    pure (String.mk parts.1 ++ r.sty (String.mk parts.2.1) r.theme.style.deletion
      ++ String.mk parts.2.2)
  | .insertion _ value => do
    let parts ← split_str_at l sp.1 sp.2
    pure (String.mk parts.1 ++ r.sty value r.theme.style.insertion
      ++ String.mk parts.2.1 ++ String.mk parts.2.2)
  | .replacement range replacement => do
    let length := range.span.2 - range.span.1
    let parts ← split_str_at l sp.1 (sp.1 + length)
    pure (String.mk parts.1 ++ r.sty replacement r.theme.style.insertion
      ++ String.mk parts.2.2)

/-- The arrow count drawn under one suggestion in `render_suggestion_line`:
the length of the inserted / replacement literal, or the deleted range's
length (`Range::len`, zero for a reversed range). -/
def Suggestion.arrowCount : Suggestion → Nat
  | .insertion _ value => value.length
  | .replacement _ rep => rep.length
  | .deletion rg => rg.span.2 - rg.span.1

/-- The style used for one suggestion's arrows in `render_suggestion_line`. -/
def suggestionArrowStyle (r : GraphicalRenderer) : Suggestion → Style
  | .insertion _ _ => r.theme.style.insertion
  | .replacement _ _ => r.theme.style.insertion
  | .deletion _ => r.theme.style.deletion

/-- `for _ in 0..n { write!(f, ...) }`: `n` appends of the same string. -/
def repeatAppend (n : Nat) (s : String) : String :=
  match n with
  | 0 => ""
  | n + 1 => s ++ repeatAppend n s

/-- The arrow-marker row of `render_suggestion_line`: walk the suggestions in
ascending order, fill `start.column - offset` spaces
(`checked_sub(..).unwrap_or_default()`), draw `arrowCount` styled arrows and
move `offset` to the span's end column. -/
def suggestionArrowStep (r : GraphicalRenderer) (source_content : List Char)
    (acc : String × Nat) (s : Suggestion) : String × Nat :=
  let span := coords_of_span source_content s.span
  let spacing := span.start.column - acc.2
  let style := suggestionArrowStyle r s
  (acc.1 ++ spaces spacing
    ++ repeatAppend s.arrowCount (r.styChar r.theme.arrows.arrow_up style),
   span.stop.column)

def suggestionArrowRow (r : GraphicalRenderer) (source_content : List Char)
    (suggestions : List Suggestion) : String :=
  (suggestions.foldl (suggestionArrowStep r source_content) ("", 0)).1

/-- `GraphicalRenderer::render_suggestion_line`: sort (stable, by the derived
`Ord`), style the line in reverse order (each edit re-reads the already
edited string), then draw the arrow row in ascending order. -/
def render_suggestion_line (r : GraphicalRenderer) (line_num : Nat)
    (suggestions : List Suggestion) : Option String :=
  match stableSortBy suggestionLE suggestions with
  | [] => some ""
  | s0 :: srest =>
    let sorted := s0 :: srest
    match sorted.reverse with
    | [] => some ""
    | first_suggestion :: _ => do
      let source_content := first_suggestion.source.content
      let source_line := extract_with_context source_content first_suggestion.span 0
      let padding := r.gutter_size_of source_content
      let styled_line ← sorted.reverse.foldlM
        (fun line s => style_suggestion_line r s line (coords_of_span source_content s.span))
        (String.mk source_line)
      pure (render_snippet_line r padding styled_line (line_num + 1)
        ++ render_snippet_gutter r padding "" (String.singleton r.theme.arrows.vertical)
        ++ suggestionArrowRow r source_content sorted ++ "\n")

/-- Insertion-ordered map update (`IndexMap::get_mut` / `insert`): append the
value to an existing key's group, else append a new group. -/
def pushEntry [DecidableEq κ] : List (κ × List β) → κ → β → List (κ × List β)
  | [], key, v => [(key, [v])]
  | (k, vs) :: rest, key, v =>
    if k = key then (k, vs ++ [v]) :: rest else (k, vs) :: pushEntry rest key v

/-- `GraphicalRenderer::render_suggestion_group`: bucket the suggestions by
the line of their start offset (resolved against the first suggestion's
source content), render each line, with a vertical break between lines. -/
def render_suggestion_group (r : GraphicalRenderer) (suggestions : List Suggestion)
    (padding : Nat) : Option String :=
  match suggestions with
  | [] => some ""
  | first_suggestion :: _ =>
    let source_content := first_suggestion.source.content
    let suggested_lines := suggestions.foldl
      (fun acc s =>
        let start_idx :=
          match s with
          | .insertion location _ => location.offset
          | .deletion range => range.span.1
          | .replacement range _ => range.span.1
        pushEntry acc (coords_of_idx source_content start_idx).line s)
      []
    let suggestion_len := suggested_lines.length
    do
      let outs ← (suggested_lines.enum).mapM fun q => do
        let lineOut ← render_suggestion_line r q.2.1 q.2.2
        pure (lineOut ++ (if q.1 < suggestion_len - 1 then render_snippet_breakln r padding else ""))
      pure (String.join outs)

/-- `GraphicalRenderer::render_help`: the `help:` gutter with follow-up lines
re-indented, then the suggestions grouped by source name (padding maximised
over all suggestion sources). -/
def render_help (r : GraphicalRenderer) (help : Help) : Option String :=
  let help_gutter := "   help: "
  let help_padding := help_gutter.length
  let msgOut := String.join (((rustLines help.message.data).enum).map fun q =>
    r.writeIdent
      ++ (if q.1 = 0 then r.sty help_gutter r.theme.style.help ++ String.mk q.2
          else spaces help_padding ++ String.mk q.2)
      ++ "\n")
  let padding := help.suggestions.foldl
    (fun p s => max p (r.gutter_size_of s.source.content)) 0
  let suggestion_groups := help.suggestions.foldl
    (fun acc s => pushEntry acc s.source.name s) []
  do
    let outs ← suggestion_groups.mapM fun g => render_suggestion_group r g.2 padding
    pure (msgOut ++ String.join outs)

/-- `GraphicalRenderer::render_footer`. -/
def render_footer (r : GraphicalRenderer) (d : Diag) : Option String :=
  match d.help with
  | none => some ""
  | some helps => do
    let outs ← helps.mapM fun h => render_help r h
    pure (String.join outs)

/-! ## The diagnostic tree walk -/

/-- The `label_groups` IndexMap built in `render_source`: labels bucketed by
resolved source name (label's own source, else the diagnostic's), in
first-seen order; the first resolved source becomes the group's source;
unresolvable labels are silently dropped. -/
def pushLabelEntry : List (Option String × LabelGroup) → Option String → Src → Label →
    List (Option String × LabelGroup)
  | [], key, source, l => [(key, ⟨[l], source⟩)]
  | (k, g) :: rest, key, source, l =>
    if k = key then (k, { g with labels := g.labels ++ [l] }) :: rest
    else (k, g) :: pushLabelEntry rest key source l

def labelGroupsOf (d : Diag) (labels : List Label) : List (Option String × LabelGroup) :=
  labels.foldl
    (fun groups label =>
      match label.source.orElse fun _ => d.source_code with
      | none => groups
      | some source => pushLabelEntry groups source.name source label)
    []

mutual

/-- `GraphicalRenderer::render_diagnostic` (header, source, footer), with the
renderer state threaded explicitly; `none` models a panic. -/
def renderDiagnostic : GraphicalRenderer → Diag → Option (GraphicalRenderer × String)
  | r, .mk message severity code source_code labels causes related help => do
    let d := Diag.mk message severity code source_code labels causes related help
    let header := render_header r d
    let (r1, causesOut) ← renderSubDiags r causes
    let labelsOut :=
      match labels with
      | none => ""
      | some ls =>
        String.join ((labelGroupsOf d ls).map fun g => render_label_group r1 g.2 severity)
    let (r2, relatedOut) ← renderSubDiags r1 related
    let footer ← render_footer r2 d
    pure (r2, header ++ causesOut ++ labelsOut ++ relatedOut ++ footer)

/-- The cause/related loops of `render_source`: increment the indent, render
the sub-diagnostic in full, emit a blank line, decrement the indent. -/
def renderSubDiags : GraphicalRenderer → List Diag → Option (GraphicalRenderer × String)
  | r, [] => some (r, "")
  | r, c :: cs => do
    let r1 := { r with current_indent := r.current_indent + 1 }
    let (r2, out) ← renderDiagnostic r1 c
    let r3 := { r2 with current_indent := r2.current_indent - 1 }
    let (r4, rest) ← renderSubDiags r3 cs
    pure (r4, out ++ "\n" ++ rest)

end

/-- `Renderer::render` from `src/render/mod.rs`: render into a fresh string
buffer (writes to a `String` buffer cannot fail, so the only failure left is
a panic). -/
def Renderer.render (r : GraphicalRenderer) (d : Diag) : Option (GraphicalRenderer × String) :=
  renderDiagnostic r d

/-! ## Shared concrete inputs -/

/-- The default renderer with colors disabled, as the repository's own test
harness configures it. -/
def defaultNoColor : GraphicalRenderer :=
  { GraphicalRenderer.new with use_colors := false }

/-- The indices a context occupies: its parent index and its child indices. -/
def ctxIndices (c : IdxLabelContext) : List Nat :=
  c.parentIdx :: c.children.map Prod.fst

def ctxsIndices (l : List IdxLabelContext) : List Nat :=
  (l.map ctxIndices).join

/-- The operations `render_line_labels` and friends perform on a
`StyledText` after construction: appending a styled suffix
(`StyledText::append`), re-styling a sub-range (`StyledText::style_span`),
and in-place character replacement of its string (`str_set_char` on the
`str` field). -/
inductive StyledOp where
  | append (s : List Char) (style : Style)
  | styleSpan (span : Nat × Nat) (style : Style)
  | setChar (offset : Nat) (c : Char)

def applyStyledOp (t : StyledText) : StyledOp → StyledText
  | .append s style => t.append s style
  | .styleSpan span style => t.styleSpan span style
  | .setChar offset c => { t with str := (str_set_char t.str offset c).1 }

/-- Occurrences of one character in a string. -/
def countChar (c : Char) (s : String) : Nat := s.data.count c

/-! ## C2: the coordinate mapper -/

/-- One step of the scan the specification describes: `'\n'` advances the
line and resets the column, any other character advances the column. -/
def coordStep (c : Coord) (ch : Char) : Coord :=
  if ch = '\n' then ⟨c.line + 1, 0⟩ else ⟨c.line, c.column + 1⟩

/-- The coordinate reached by scanning the first `index` characters, as the
specification words describe `coordsOfIndex`. -/
def scanCoords (s : List Char) (index : Nat) : Coord :=
  (s.take index).foldl coordStep ⟨0, 0⟩

theorem coordsOfIdxGo_eq_foldl (index : Nat) :
    ∀ (cs : List Char) (i : Nat) (acc : Coord), i ≤ index → index ≤ i + cs.length →
      coordsOfIdxGo (i + cs.length) index cs i acc.line acc.column
        = (cs.take (index - i)).foldl coordStep acc
  | [], i, acc, h1, h2 => by
    have hik : index = i := by simp at h2; omega
    subst hik
    simp [coordsOfIdxGo]
  | c :: rest, i, acc, h1, h2 => by
    by_cases hi : i = index
    · subst hi
      simp [coordsOfIdxGo, Nat.sub_self]
    · have hlt : i < index := by omega
      have htake : index - i = (index - (i + 1)) + 1 := by omega
      have hlen : i + (c :: rest).length = (i + 1) + rest.length := by
        simp; omega
      rw [htake, List.take_succ_cons, List.foldl_cons, hlen]
      by_cases hc : c = '\n'
      · rw [show coordStep acc c = (⟨acc.line + 1, 0⟩ : Coord) from by simp [coordStep, hc]]
        have ih := coordsOfIdxGo_eq_foldl index rest (i + 1)
          ⟨acc.line + 1, 0⟩ (by omega) (by simp at h2 ⊢; omega)
        simpa [coordsOfIdxGo, hi, hc] using ih
      · rw [show coordStep acc c = (⟨acc.line, acc.column + 1⟩ : Coord) from by
          simp [coordStep, hc]]
        have ih := coordsOfIdxGo_eq_foldl index rest (i + 1)
          ⟨acc.line, acc.column + 1⟩ (by omega) (by simp at h2 ⊢; omega)
        simpa [coordsOfIdxGo, hi, hc] using ih

theorem coords_of_idx_eq_scan (s : List Char) (i : Nat) (h : i ≤ s.length) :
    coords_of_idx s i = scanCoords s i := by
  unfold coords_of_idx
  rw [if_neg (by omega)]
  have hgo := coordsOfIdxGo_eq_foldl i s 0 ⟨0, 0⟩ (by omega) (by omega)
  simpa [scanCoords] using hgo

/-- C2 (counterexample): for `"ab"` (length 2) and index 5 the function
returns column 2, while the last character of the last line sits at column 1
(the scan coordinate of index 1); column 2 is one past the line's characters,
so the returned coordinate is not the coordinate of the last character. -/
theorem coords_clamp_counterexample :
    coords_of_idx "ab".data 5 = ⟨0, 2⟩ ∧
    scanCoords "ab".data 1 = ⟨0, 1⟩ ∧
    ("ab".data).length = 2 ∧
    (⟨0, 2⟩ : Coord) ≠ (⟨0, 1⟩ : Coord) := by decide

/-- C2 (amended): for every content and byte index, `coords_of_idx` with
`i ≤ len` returns the coordinate obtained by scanning characters from the
start (incrementing `column`, and on each `'\n'` incrementing `line` and
resetting `column` to 0); for every `i > len` it returns the clamped
coordinate `{line = lineCount - 1 (0 when there are no lines), column =
length of the last line}` — the position one past the last character of the
last line, never an out-of-bounds line index. -/
theorem coords_of_idx_spec :
    (∀ (s : List Char) (i : Nat), i ≤ s.length → coords_of_idx s i = scanCoords s i) ∧
    (∀ (s : List Char) (i : Nat), i > s.length →
      coords_of_idx s i
        = ⟨(rustLines s).length - 1, (((rustLines s).getLast?).map List.length).getD 0⟩) := by
  refine ⟨fun s i h => coords_of_idx_eq_scan s i h, fun s i h => ?_⟩
  unfold coords_of_idx
  rw [if_pos h]

/-- C2 witness: the amended statement applied at concrete inputs. -/
theorem coords_of_idx_spec_witness :
    coords_of_idx "a\nbc".data 3 = scanCoords "a\nbc".data 3 ∧
    coords_of_idx "a\nbc".data 9 = ⟨1, 2⟩ := by
  refine ⟨coords_of_idx_spec.1 "a\nbc".data 3 (by decide), ?_⟩
  rw [coords_of_idx_spec.2 "a\nbc".data 9 (by decide)]
  rfl

/-! ## C3: the fallback context window -/

theorem lineSpansGo_length (ls : List (List Char)) :
    ∀ s0 : Nat, (lineSpansGo s0 ls).length = ls.length := by
  induction ls with
  | nil => intro s0; rfl
  | cons l ls ih => intro s0; simp [lineSpansGo, ih]

theorem lineSpansGo_snd_ge (ls : List (List Char)) :
    ∀ (s0 j : Nat) (sp : Nat × Nat),
      (lineSpansGo s0 ls).get? j = some sp → s0 + j ≤ sp.2 := by
  induction ls with
  | nil => intro s0 j sp h; simp [lineSpansGo] at h
  | cons l ls ih =>
    intro s0 j sp h
    match j with
    | 0 =>
      simp only [lineSpansGo, List.get?_cons_zero, Option.some.injEq] at h
      subst h
      show s0 + 0 ≤ s0 + l.length
      omega
    | j + 1 =>
      simp only [lineSpansGo, List.get?_cons_succ] at h
      have := ih (s0 + l.length + 1) j sp h
      omega

theorem lineSpansGo_snd_ge_head (l0 : List Char) (ls : List (List Char)) (s0 j : Nat)
    (sp : Nat × Nat) (h : (lineSpansGo s0 (l0 :: ls)).get? j = some sp) :
    s0 + l0.length ≤ sp.2 := by
  match j with
  | 0 =>
    simp only [lineSpansGo, List.get?_cons_zero, Option.some.injEq] at h
    subst h
    show s0 + l0.length ≤ s0 + l0.length
    omega
  | j + 1 =>
    simp only [lineSpansGo, List.get?_cons_succ] at h
    have := lineSpansGo_snd_ge ls (s0 + l0.length + 1) j sp h
    omega

theorem get?_orElse_getLast? (l : List α) (k : Nat) :
    ((l.get? k).orElse fun _ => l.getLast?) = l.get? (min k (l.length - 1)) := by
  by_cases hk : k < l.length
  · have hmin : min k (l.length - 1) = k := by omega
    rw [hmin]
    rcases hg : l.get? k with _ | v
    · rw [List.get?_eq_none] at hg; omega
    · simp [Option.orElse]
  · have hnone : l.get? k = none := List.get?_eq_none.mpr (by omega)
    rw [hnone]
    have hmin : min k (l.length - 1) = l.length - 1 := by omega
    rw [hmin, ← List.getLast?_eq_get?]
    rfl

/-- C3 (counterexample): with `contextLines = 1` on a 4-line file and a range
past EOF, the fallback window is the whole 4-line file — not
`min(contextLines*2+1, lineCount) = 3` lines; and on the 1-line content
`"\n"` the fallback window is the empty string, not a non-empty window. -/
theorem extract_fallback_counterexample :
    matchingLines "a\nb\nc\nd".data (100, 101) = [] ∧
    extract_with_context_offset "a\nb\nc\nd".data (100, 101) 1 = ("a\nb\nc\nd".data, 1) ∧
    (rustLines (extract_with_context_offset "a\nb\nc\nd".data (100, 101) 1).1).length = 4 ∧
    min (1 * 2 + 1) (rustLines "a\nb\nc\nd".data).length = 3 ∧
    matchingLines "\n".data (5, 6) = [] ∧
    (rustLines "\n".data).length = 1 ∧
    extract_with_context_offset "\n".data (5, 6) 1 = ([], 1) := by decide

/-- C3 (amended): whenever the range intersects no line, the function returns
`(content[0 .. e], contextLines)` where `e` is the end offset of line
`min(contextLines*2+1, lineCount-1)` — a window of initial whole lines
starting at byte 0 (up to `contextLines*2+2` of them, one more than the claim
said); it is non-empty whenever the content has at least two lines, or its
first line is non-empty. -/
theorem extract_fallback_spec (input : List Char) (range : Nat × Nat) (context_lines : Nat)
    (h : matchingLines input range = []) :
    extract_with_context_offset input range context_lines
      = (input.take
          ((((lineSpans input).get?
              (min (context_lines * 2 + 1) ((lineSpans input).length - 1))).map Prod.snd).getD 0),
         context_lines)
    ∧ (2 ≤ (rustLines input).length →
        (extract_with_context_offset input range context_lines).1 ≠ [])
    ∧ (∀ l0 ls, rustLines input = l0 :: ls → l0 ≠ [] →
        (extract_with_context_offset input range context_lines).1 ≠ []) := by
  have hlen : (lineSpans input).length = (rustLines input).length :=
    lineSpansGo_length (rustLines input) 0
  have heq : extract_with_context_offset input range context_lines
      = (input.take
          ((((lineSpans input).get?
              (min (context_lines * 2 + 1) ((lineSpans input).length - 1))).map Prod.snd).getD 0),
         context_lines) := by
    simp only [extract_with_context_offset, h, get?_orElse_getLast?]
  refine ⟨heq, ?_, ?_⟩
  · intro h2
    rw [heq]
    have hinput : input ≠ [] := by
      intro he
      rw [he] at h2
      simp [rustLines] at h2
    set jm := min (context_lines * 2 + 1) ((lineSpans input).length - 1) with hjm
    have hjlt : jm < (lineSpans input).length := by omega
    rcases hg : (lineSpans input).get? jm with _ | sp
    · rw [List.get?_eq_none] at hg; omega
    · have hge := lineSpansGo_snd_ge (rustLines input) 0 jm sp hg
      have hjm1 : 1 ≤ jm := by omega
      simp only [hg, Option.map_some', Option.getD_some]
      rw [Ne, List.take_eq_nil_iff]
      push_neg
      exact ⟨by omega, hinput⟩
  · intro l0 ls hls hl0
    rw [heq]
    have hinput : input ≠ [] := by
      intro he
      rw [he] at hls
      simp [rustLines] at hls
    set jm := min (context_lines * 2 + 1) ((lineSpans input).length - 1) with hjm
    have hlen1 : 1 ≤ (rustLines input).length := by rw [hls]; simp
    have hjlt : jm < (lineSpans input).length := by omega
    rcases hg : (lineSpans input).get? jm with _ | sp
    · rw [List.get?_eq_none] at hg; omega
    · have hge : (0 : Nat) + l0.length ≤ sp.2 := by
        apply lineSpansGo_snd_ge_head l0 ls 0 jm sp
        rw [← hls]
        exact hg
      have hl0len : 1 ≤ l0.length := by
        cases l0 with
        | nil => exact absurd rfl hl0
        | cons a as => simp
      simp only [hg, Option.map_some', Option.getD_some]
      rw [Ne, List.take_eq_nil_iff]
      push_neg
      exact ⟨by omega, hinput⟩

/-- C3 witness: the amended statement applied at a concrete input. -/
theorem extract_fallback_spec_witness :
    extract_with_context_offset "a\nb".data (100, 101) 1 = ("a\nb".data, 1) ∧
    (extract_with_context_offset "a\nb".data (100, 101) 1).1 ≠ [] := by
  have h := extract_fallback_spec "a\nb".data (100, 101) 1 (by decide)
  refine ⟨?_, h.2.1 (by decide)⟩
  rw [h.1]
  rfl

/-! ## C4 and C5: invariants of the label grouper -/

theorem golChildScan_spec (ds : Option Src) (ps : Src) (span : Nat × Nat) :
    ∀ (rest : List (Nat × Label)) (visited : List Nat),
      (∀ j, j ∈ (golChildScan ds ps span rest visited).2 ↔
          j ∈ visited ∨ j ∈ (golChildScan ds ps span rest visited).1.map Prod.fst) ∧
      (∀ q ∈ (golChildScan ds ps span rest visited).1,
          q.1 ∉ visited ∧
          (∃ cs, (q.2.source.orElse fun _ => ds) = some cs ∧ cs.name = ps.name) ∧
          span.1 ≤ q.2.range.1 ∧ q.2.range.1 < span.2) ∧
      ((golChildScan ds ps span rest visited).1.map Prod.fst).Nodup := by
  intro rest
  induction rest with
  | nil =>
    intro visited
    refine ⟨fun j => by simp [golChildScan], fun q hq => ?_, by simp [golChildScan]⟩
    simp [golChildScan] at hq
  | cons p rest ih =>
    intro visited
    rcases hres : p.2.source.orElse (fun _ => ds) with _ | cs
    · simpa only [golChildScan, hres] using ih visited
    · by_cases hname : cs.name = ps.name
      · by_cases hcond : span.1 ≤ p.2.range.1 ∧ p.2.range.1 < span.2 ∧ p.1 ∉ visited
        · have hred : golChildScan ds ps span (p :: rest) visited
              = (p :: (golChildScan ds ps span rest (p.1 :: visited)).1,
                 (golChildScan ds ps span rest (p.1 :: visited)).2) := by
            simp only [golChildScan, hres]
            rw [if_neg (by simp [hname]), if_pos hcond]
          obtain ⟨ihm, ihp, ihn⟩ := ih (p.1 :: visited)
          rw [hred]
          refine ⟨?_, ?_, ?_⟩
          · intro j
            rw [ihm j]
            simp only [List.map_cons, List.mem_cons]
            tauto
          · intro q hq
            rcases List.mem_cons.mp hq with hq | hq
            · subst hq
              exact ⟨hcond.2.2, ⟨cs, hres, hname⟩, hcond.1, hcond.2.1⟩
            · obtain ⟨hnv, hrest⟩ := ihp q hq
              exact ⟨fun hv => hnv (List.mem_cons_of_mem _ hv), hrest⟩
          · simp only [List.map_cons, List.nodup_cons]
            refine ⟨?_, ihn⟩
            intro hmem
            obtain ⟨q, hq, hq1⟩ := List.mem_map.mp hmem
            obtain ⟨hnv, _⟩ := ihp q hq
            exact hnv (by rw [hq1]; exact List.mem_cons_self _ _)
        · have hred : golChildScan ds ps span (p :: rest) visited
              = golChildScan ds ps span rest visited := by
            simp only [golChildScan, hres]
            rw [if_neg (by simp [hname]), if_neg hcond]
          rw [hred]; exact ih visited
      · have hred : golChildScan ds ps span (p :: rest) visited
            = golChildScan ds ps span rest visited := by
          simp only [golChildScan, hres]
          rw [if_pos (by simp [hname])]
        rw [hred]; exact ih visited

theorem parentIdx_mem_ctxsIndices {ctx : IdxLabelContext} {l : List IdxLabelContext}
    (h : ctx ∈ l) : ctx.parentIdx ∈ ctxsIndices l := by
  rw [ctxsIndices, List.mem_join]
  exact ⟨ctxIndices ctx, List.mem_map_of_mem _ h, List.mem_cons_self _ _⟩

theorem childIdx_mem_ctxsIndices {ctx : IdxLabelContext} {l : List IdxLabelContext}
    (h : ctx ∈ l) {x : Nat} (hx : x ∈ ctx.children.map Prod.fst) :
    x ∈ ctxsIndices l := by
  rw [ctxsIndices, List.mem_join]
  exact ⟨ctxIndices ctx, List.mem_map_of_mem _ h, List.mem_cons_of_mem _ hx⟩

theorem ctxsIndices_cons (c : IdxLabelContext) (l : List IdxLabelContext) :
    ctxsIndices (c :: l) = ctxIndices c ++ ctxsIndices l := by
  simp [ctxsIndices]

theorem golLoop_spec (ds : Option Src) :
    ∀ (l : List (Nat × Label)) (visited : List Nat),
      (ctxsIndices (golLoop ds l visited)).Nodup ∧
      ∀ j ∈ ctxsIndices (golLoop ds l visited), j ∉ visited := by
  intro l
  induction l with
  | nil =>
    intro visited
    constructor
    · simp [golLoop, ctxsIndices]
    · intro j hj
      simp [golLoop, ctxsIndices] at hj
  | cons p rest ih =>
    intro visited
    rcases hres : p.2.source.orElse (fun _ => ds) with _ | ps
    · simpa only [golLoop, hres] using ih visited
    · by_cases hv : p.1 ∈ visited
      · have hred : golLoop ds (p :: rest) visited = golLoop ds rest visited := by
          simp only [golLoop, hres]
          rw [if_pos hv]
        rw [hred]; exact ih visited
      · by_cases hml : (coords_of_span ps.content p.2.range).isMultiline
        · -- multi-line parent: child scan
          have hred : golLoop ds (p :: rest) visited
              = ⟨p.1, p.2, (golChildScan ds ps p.2.range rest (p.1 :: visited)).1, ps⟩
                :: golLoop ds rest (golChildScan ds ps p.2.range rest (p.1 :: visited)).2 := by
            simp only [golLoop, hres]
            rw [if_neg hv, if_neg (by simpa using hml)]
          obtain ⟨sm, sp, sn⟩ := golChildScan_spec ds ps p.2.range rest (p.1 :: visited)
          obtain ⟨rn, rav⟩ := ih (golChildScan ds ps p.2.range rest (p.1 :: visited)).2
          rw [hred, ctxsIndices_cons]
          have hchild_sub : ∀ x ∈ (golChildScan ds ps p.2.range rest (p.1 :: visited)).1.map
              Prod.fst, x ∈ (golChildScan ds ps p.2.range rest (p.1 :: visited)).2 :=
            fun x hx => (sm x).mpr (Or.inr hx)
          have hp1_mem : p.1 ∈ (golChildScan ds ps p.2.range rest (p.1 :: visited)).2 :=
            (sm p.1).mpr (Or.inl (List.mem_cons_self _ _))
          constructor
          · rw [List.nodup_append]
            refine ⟨?_, rn, ?_⟩
            · rw [ctxIndices, List.nodup_cons]
              refine ⟨?_, sn⟩
              intro hmem
              obtain ⟨q, hq, hq1⟩ := List.mem_map.mp hmem
              exact (sp q hq).1 (by rw [hq1]; exact List.mem_cons_self _ _)
            · intro x hx
              rcases List.mem_cons.mp hx with hx | hx
              · subst hx; exact fun hmem => rav _ hmem hp1_mem
              · exact fun hmem => rav _ hmem (hchild_sub x hx)
          · intro j hj
            rcases List.mem_append.mp hj with hj | hj
            · rcases List.mem_cons.mp hj with hj | hj
              · subst hj; exact hv
              · obtain ⟨q, hq, hq1⟩ := List.mem_map.mp hj
                intro hjv
                exact (sp q hq).1 (by rw [hq1]; exact List.mem_cons_of_mem _ hjv)
            · intro hjv
              exact rav j hj ((sm j).mpr (Or.inl (List.mem_cons_of_mem _ hjv)))
        · -- single-line parent: standalone context
          have hred : golLoop ds (p :: rest) visited
              = ⟨p.1, p.2, [], ps⟩ :: golLoop ds rest (p.1 :: visited) := by
            simp only [golLoop, hres]
            rw [if_neg hv, if_pos (by simpa using hml)]
          obtain ⟨rn, rav⟩ := ih (p.1 :: visited)
          rw [hred, ctxsIndices_cons]
          constructor
          · rw [List.nodup_append]
            refine ⟨by simp [ctxIndices], rn, ?_⟩
            intro x hx
            simp [ctxIndices] at hx
            subst hx
            exact fun hmem => rav _ hmem (List.mem_cons_self _ _)
          · intro j hj
            rcases List.mem_append.mp hj with hj | hj
            · simp [ctxIndices] at hj
              subst hj; exact hv
            · exact fun hjv => rav j hj (List.mem_cons_of_mem _ hjv)

theorem golLoop_ctx_spec (ds : Option Src) :
    ∀ (l : List (Nat × Label)) (visited : List Nat),
      ∀ ctx ∈ golLoop ds l visited,
        (ctx.parent.source.orElse fun _ => ds) = some ctx.source ∧
        (∀ q ∈ ctx.children,
          (∃ cs, (q.2.source.orElse fun _ => ds) = some cs ∧ cs.name = ctx.source.name) ∧
          ctx.parent.range.1 ≤ q.2.range.1 ∧ q.2.range.1 < ctx.parent.range.2) ∧
        ((coords_of_span ctx.source.content ctx.parent.range).isMultiline = false →
          ctx.children = []) := by
  intro l
  induction l with
  | nil =>
    intro visited ctx hctx
    simp [golLoop] at hctx
  | cons p rest ih =>
    intro visited ctx hctx
    rcases hres : p.2.source.orElse (fun _ => ds) with _ | ps
    · simp only [golLoop, hres] at hctx
      exact ih visited ctx hctx
    · by_cases hv : p.1 ∈ visited
      · simp only [golLoop, hres] at hctx
        rw [if_pos hv] at hctx
        exact ih visited ctx hctx
      · by_cases hml : (coords_of_span ps.content p.2.range).isMultiline
        · simp only [golLoop, hres] at hctx
          rw [if_neg hv, if_neg (by simpa using hml)] at hctx
          rcases List.mem_cons.mp hctx with hctx | hctx
          · subst hctx
            obtain ⟨_, sp, _⟩ := golChildScan_spec ds ps p.2.range rest (p.1 :: visited)
            refine ⟨hres, fun q hq => (sp q hq).2, fun hsl => ?_⟩
            rw [hml] at hsl
            cases hsl
          · exact ih _ ctx hctx
        · simp only [golLoop, hres] at hctx
          rw [if_neg hv, if_pos (by simpa using hml)] at hctx
          rcases List.mem_cons.mp hctx with hctx | hctx
          · subst hctx
            refine ⟨hres, fun q hq => ?_, fun _ => rfl⟩
            simp at hq
          · exact ih _ ctx hctx

theorem golLoop_parent_child_distinct (ds : Option Src) :
    ∀ (l : List (Nat × Label)) (visited : List Nat),
      ∀ ctx ∈ golLoop ds l visited, ∀ q ∈ golLoop ds l visited,
        ∀ x ∈ ctx.children.map Prod.fst, x ≠ q.parentIdx := by
  intro l
  induction l with
  | nil =>
    intro visited ctx hctx
    simp [golLoop] at hctx
  | cons p rest ih =>
    intro visited ctx hctx q hq x hx
    rcases hres : p.2.source.orElse (fun _ => ds) with _ | ps
    · simp only [golLoop, hres] at hctx hq
      exact ih visited ctx hctx q hq x hx
    · by_cases hv : p.1 ∈ visited
      · simp only [golLoop, hres] at hctx hq
        rw [if_pos hv] at hctx hq
        exact ih visited ctx hctx q hq x hx
      · by_cases hml : (coords_of_span ps.content p.2.range).isMultiline
        · simp only [golLoop, hres] at hctx hq
          rw [if_neg hv, if_neg (by simpa using hml)] at hctx hq
          obtain ⟨sm, sp, sn⟩ := golChildScan_spec ds ps p.2.range rest (p.1 :: visited)
          have rav := (golLoop_spec ds rest
            (golChildScan ds ps p.2.range rest (p.1 :: visited)).2).2
          rcases List.mem_cons.mp hctx with hctx | hctx <;>
            rcases List.mem_cons.mp hq with hq | hq
          · -- both are the head context
            subst hctx; subst hq
            obtain ⟨c, hc, hc1⟩ := List.mem_map.mp hx
            intro hxp
            exact (sp c hc).1 (by
              rw [hc1, hxp]
              exact List.mem_cons_self _ _)
          · -- ctx is the head, q in the tail
            subst hctx
            obtain ⟨c, hc, hc1⟩ := List.mem_map.mp hx
            have hxin : x ∈ (golChildScan ds ps p.2.range rest (p.1 :: visited)).2 :=
              (sm x).mpr (Or.inr (List.mem_map.mpr ⟨c, hc, hc1⟩))
            intro hxp
            exact rav q.parentIdx (parentIdx_mem_ctxsIndices hq) (hxp ▸ hxin)
          · -- ctx in the tail, q is the head
            subst hq
            have hxout : x ∉ (golChildScan ds ps p.2.range rest (p.1 :: visited)).2 :=
              rav x (childIdx_mem_ctxsIndices hctx hx)
            intro hxp
            exact hxout (by
              rw [hxp]
              exact (sm p.1).mpr (Or.inl (List.mem_cons_self _ _)))
          · exact ih _ ctx hctx q hq x hx
        · simp only [golLoop, hres] at hctx hq
          rw [if_neg hv, if_pos (by simpa using hml)] at hctx hq
          have rav := (golLoop_spec ds rest (p.1 :: visited)).2
          rcases List.mem_cons.mp hctx with hctx | hctx <;>
            rcases List.mem_cons.mp hq with hq | hq
          · subst hctx
            simp at hx
          · subst hctx
            simp at hx
          · subst hq
            have hxout : x ∉ p.1 :: visited :=
              fun hmem => rav x (childIdx_mem_ctxsIndices hctx hx) hmem
            intro hxp
            exact hxout (by rw [hxp]; exact List.mem_cons_self _ _)
          · exact ih _ ctx hctx q hq x hx

theorem golLoop_single_line_no_children (ds : Option Src) :
    ∀ (l : List (Nat × Label)) (visited : List Nat),
      (∀ p ∈ l, ∀ s, (p.2.source.orElse fun _ => ds) = some s →
        (coords_of_span s.content p.2.range).isMultiline = false) →
      ∀ ctx ∈ golLoop ds l visited, ctx.children = [] := by
  intro l
  induction l with
  | nil =>
    intro visited _ ctx hctx
    simp [golLoop] at hctx
  | cons p rest ih =>
    intro visited hall ctx hctx
    have hall_rest : ∀ q ∈ rest, ∀ s, (q.2.source.orElse fun _ => ds) = some s →
        (coords_of_span s.content q.2.range).isMultiline = false :=
      fun q hq => hall q (List.mem_cons_of_mem _ hq)
    rcases hres : p.2.source.orElse (fun _ => ds) with _ | ps
    · simp only [golLoop, hres] at hctx
      exact ih visited hall_rest ctx hctx
    · by_cases hv : p.1 ∈ visited
      · simp only [golLoop, hres] at hctx
        rw [if_pos hv] at hctx
        exact ih visited hall_rest ctx hctx
      · have hsl : (coords_of_span ps.content p.2.range).isMultiline = false :=
          hall p (List.mem_cons_self _ _) ps hres
        simp only [golLoop, hres] at hctx
        rw [if_neg hv, if_pos (by simp [hsl])] at hctx
        rcases List.mem_cons.mp hctx with hctx | hctx
        · subst hctx; rfl
        · exact ih _ hall_rest ctx hctx

theorem mem_insertSorted (le : α → α → Bool) (a x : α) :
    ∀ l : List α, x ∈ insertSorted le a l ↔ x = a ∨ x ∈ l := by
  intro l
  induction l with
  | nil => simp [insertSorted]
  | cons y ys ih =>
    by_cases h : le y a
    · rw [insertSorted, if_pos h]
      simp only [List.mem_cons, ih]
      tauto
    · rw [insertSorted, if_neg h]
      simp only [List.mem_cons]

theorem mem_stableSortBy (le : α → α → Bool) (l : List α) (x : α) :
    x ∈ stableSortBy le l ↔ x ∈ l := by
  suffices h : ∀ (l : List α) (acc : List α),
      x ∈ l.foldl (fun acc x => insertSorted le x acc) acc ↔ x ∈ acc ∨ x ∈ l by
    rw [stableSortBy, h l []]
    simp
  intro l
  induction l with
  | nil => intro acc; simp
  | cons y ys ih =>
    intro acc
    rw [List.foldl_cons, ih, mem_insertSorted]
    simp only [List.mem_cons]
    tauto

/-- C4: for every label sequence and diagnostic source fallback, the contexts
produced by `group_overlapping_labels` use each (sorted-position) label index
at most once over all parent and child slots: the joined index list is
duplicate-free, so a child is attached to at most one parent, no label is a
child of two contexts, and no label is both a parent and a child.  The second
conjunct records that the function under verification is exactly the
index-instrumented walk with the indices erased. -/
theorem group_overlapping_labels_partition (diag_source : Option Src) (labels : List Label) :
    (ctxsIndices (group_overlapping_labels_idx diag_source labels)).Nodup ∧
    group_overlapping_labels diag_source labels
      = (group_overlapping_labels_idx diag_source labels).map
          (fun c => ⟨c.parent, c.children.map Prod.snd, c.source⟩) := by
  constructor
  · unfold group_overlapping_labels_idx
    exact (golLoop_spec diag_source _ []).1
  · rfl

/-- C5 (counterexample): on the source `"abc\ndef\nghi"`, the label with range
`(5, 6)` is single-line, yet `group_overlapping_labels` attaches it as a
child of the multi-line parent with range `(0, 8)` instead of emitting it as
a standalone context — so single-line labels do not always become standalone
contexts. -/
theorem single_line_label_becomes_child :
    (coords_of_span "abc\ndef\nghi".data (5, 6)).isMultiline = false ∧
    group_overlapping_labels none
      [⟨"p", some ⟨some "f", "abc\ndef\nghi".data⟩, (0, 8), none⟩,
       ⟨"c", some ⟨some "f", "abc\ndef\nghi".data⟩, (5, 6), none⟩]
      = [⟨⟨"p", some ⟨some "f", "abc\ndef\nghi".data⟩, (0, 8), none⟩,
          [⟨"c", some ⟨some "f", "abc\ndef\nghi".data⟩, (5, 6), none⟩],
          ⟨some "f", "abc\ndef\nghi".data⟩⟩] := by decide

/-- C5 (amended): in every context produced by `group_overlapping_labels`:
each child's effective source exists and carries the parent's source name;
each child's start offset lies in `[parentStart, parentEnd)`; a parent whose
span is single-line has no children; a child index is never the parent index
of any context (nesting depth is exactly one); and when every label of the
input is single-line with respect to its effective source, every emitted
context is standalone with no children.  (Single-line labels that fall inside
an earlier multi-line parent's range are attached as children, so they are
not always standalone.) -/
theorem group_overlapping_labels_nesting (diag_source : Option Src) (labels : List Label) :
    (∀ ctx ∈ group_overlapping_labels_idx diag_source labels,
      (ctx.parent.source.orElse fun _ => diag_source) = some ctx.source ∧
      (∀ q ∈ ctx.children,
        (∃ cs, (q.2.source.orElse fun _ => diag_source) = some cs ∧
          cs.name = ctx.source.name) ∧
        ctx.parent.range.1 ≤ q.2.range.1 ∧ q.2.range.1 < ctx.parent.range.2) ∧
      ((coords_of_span ctx.source.content ctx.parent.range).isMultiline = false →
        ctx.children = [])) ∧
    (∀ ctx ∈ group_overlapping_labels_idx diag_source labels,
      ∀ q ∈ group_overlapping_labels_idx diag_source labels,
      ∀ x ∈ ctx.children.map Prod.fst, x ≠ q.parentIdx) ∧
    ((∀ l ∈ labels, ∀ s, (l.source.orElse fun _ => diag_source) = some s →
        (coords_of_span s.content l.range).isMultiline = false) →
      ∀ ctx ∈ group_overlapping_labels diag_source labels, ctx.children = []) := by
  refine ⟨golLoop_ctx_spec diag_source _ [], golLoop_parent_child_distinct diag_source _ [], ?_⟩
  intro hall ctx hctx
  obtain ⟨ictx, hictx, hmap⟩ := List.mem_map.mp hctx
  have hnone : ictx.children = [] := by
    unfold group_overlapping_labels_idx at hictx
    refine golLoop_single_line_no_children diag_source _ [] ?_ ictx hictx
    intro p hp s hs
    have hmem : p.2 ∈ labels :=
      (mem_stableSortBy _ labels p.2).mp (List.snd_mem_of_mem_enum hp)
    exact hall p.2 hmem s hs
  rw [← hmap]
  simp [hnone]

/-- C5 witness: the final clause of the amended statement applied to two
disjoint single-line labels, each of which becomes a standalone context. -/
theorem group_overlapping_labels_nesting_witness :
    ∀ ctx ∈ group_overlapping_labels (some ⟨some "f", "abc".data⟩)
      [⟨"l1", none, (0, 1), none⟩, ⟨"l2", none, (2, 3), none⟩],
      ctx.children = [] := by
  apply (group_overlapping_labels_nesting (some ⟨some "f", "abc".data⟩)
    [⟨"l1", none, (0, 1), none⟩, ⟨"l2", none, (2, 3), none⟩]).2.2
  intro l hl s hs
  rcases List.mem_cons.mp hl with hl | hl
  · subst hl
    have hs2 : some (⟨some "f", "abc".data⟩ : Src) = some s := hs
    injection hs2 with h
    subst h
    decide
  · rcases List.mem_cons.mp hl with hl | hl
    · subst hl
      have hs2 : some (⟨some "f", "abc".data⟩ : Src) = some s := hs
      injection hs2 with h
      subst h
      decide
    · cases hl

/-! ## C9: StyledText keeps one style per character -/

theorem foldl_set_length (style : Style) :
    ∀ (l : List Nat) (cs : List Style),
      (l.foldl (fun cs idx => cs.set idx style) cs).length = cs.length := by
  intro l
  induction l with
  | nil => intro cs; rfl
  | cons a l ih => intro cs; rw [List.foldl_cons, ih, List.length_set]

theorem applyStyledOp_parity (t : StyledText) (op : StyledOp)
    (h : t.chars.length = t.str.length) :
    (applyStyledOp t op).chars.length = (applyStyledOp t op).str.length := by
  cases op with
  | append s style => simp [applyStyledOp, StyledText.append, h]
  | styleSpan span style =>
    simp only [applyStyledOp, StyledText.styleSpan]
    rw [foldl_set_length]
    exact h
  | setChar offset c =>
    simp only [applyStyledOp, str_set_char]
    by_cases hoff : offset < t.str.length
    · simp [hoff, h]
    · simp [hoff, h]

/-- C9: a `StyledText` built by `StyledText::new` keeps exactly one style tag
per character of its string under every sequence of the operations performed
on it during rendering (appending styled suffixes, re-styling sub-ranges,
in-place character replacement of the string). -/
theorem styled_text_parity (s : List Char) (ops : List StyledOp) :
    ((ops.foldl applyStyledOp (StyledText.new s)).chars).length
      = ((ops.foldl applyStyledOp (StyledText.new s)).str).length := by
  suffices h : ∀ (ops : List StyledOp) (t : StyledText), t.chars.length = t.str.length →
      ((ops.foldl applyStyledOp t).chars).length = ((ops.foldl applyStyledOp t).str).length by
    exact h ops (StyledText.new s) (by simp [StyledText.new])
  intro ops
  induction ops with
  | nil => intro t ht; exact ht
  | cons op ops ih => intro t ht; exact ih _ (applyStyledOp_parity t op ht)

/-! ## C8: arrow-marker counts under suggestion lines -/

theorem countChar_append (c : Char) (a b : String) :
    countChar c (a ++ b) = countChar c a + countChar c b := by
  show ((a ++ b).data).count c = a.data.count c + b.data.count c
  have : (a ++ b).data = a.data ++ b.data := rfl
  rw [this, List.count_append]

theorem countChar_spaces (n : Nat) : countChar '^' (spaces n) = 0 := by
  simp [countChar, spaces, List.count_replicate]

theorem countChar_repeatAppend (c : Char) (s : String) (n : Nat) :
    countChar c (repeatAppend n s) = n * countChar c s := by
  induction n with
  | zero => simp [repeatAppend, countChar]
  | succ n ih =>
    rw [repeatAppend, countChar_append, ih]
    ring

theorem suggestionArrowRow_count_aux (source_content : List Char) :
    ∀ (suggestions : List Suggestion) (acc : String × Nat),
      countChar '^' ((suggestions.foldl (suggestionArrowStep defaultNoColor source_content)
          acc).1)
        = countChar '^' acc.1 + (suggestions.map Suggestion.arrowCount).sum := by
  intro suggestions
  induction suggestions with
  | nil => intro acc; simp
  | cons s ss ih =>
    intro acc
    rw [List.foldl_cons, ih]
    simp only [List.map_cons, List.sum_cons]
    have hstep : countChar '^' ((suggestionArrowStep defaultNoColor source_content acc s).1)
        = countChar '^' acc.1 + s.arrowCount := by
      simp only [suggestionArrowStep]
      rw [countChar_append, countChar_append, countChar_spaces, countChar_repeatAppend]
      have hch : defaultNoColor.styChar defaultNoColor.theme.arrows.arrow_up
          (suggestionArrowStyle defaultNoColor s) = "^" := rfl
      rw [hch]
      have h1 : countChar '^' "^" = 1 := rfl
      rw [h1]
      omega
    rw [hstep]
    omega

/-- C8: in the arrow-marker row drawn by `render_suggestion_line` (colors
off, default theme), the number of `^` glyphs contributed per edit equals the
length of the inserted literal for insertions, the length of the replacement
literal for replacements and the length of the deleted range for deletions —
the row's total `^` count is the sum of these; in particular replacing the
4-character span `8..12` (`"fals"`) by `"false"` yields a suggestion line
whose marker row carries exactly 5 arrows. -/
theorem suggestion_arrow_counts :
    (∀ (source_content : List Char) (suggestions : List Suggestion),
      countChar '^' (suggestionArrowRow defaultNoColor source_content suggestions)
        = (suggestions.map Suggestion.arrowCount).sum) ∧
    Suggestion.arrowCount
      (.replacement ⟨⟨some "s", "let x = fals;".data⟩, (8, 12)⟩ "false") = 5 ∧
    (render_suggestion_line defaultNoColor 0
        [.replacement ⟨⟨some "s", "let x = fals;".data⟩, (8, 12)⟩ "false"]).map
      (countChar '^') = some 5 := by
  refine ⟨fun source_content suggestions => ?_, by decide, by decide⟩
  rw [suggestionArrowRow, suggestionArrowRow_count_aux]
  simp [countChar]

/-! ## C7: reversed single-line spans -/

/-- C7: for the reversed span `3..1` on the 3-character source `"abc"`,
`coords_of_span` produces the inverted span `(0,3)..(0,1)` and
`Span::columns` special-cases it to the width-1 column range `3..4`; but the
underline row drawn by `render_line_labels` sizes its buffer by the *end*
column (1), so the width-1 marker at column 3 is silently dropped by
`str_set_char`: rendering completes without error, yet the output contains
no `^` marker at all — zero columns are underlined, not one. -/
theorem reversed_span_marker_dropped :
    coords_of_span "abc".data (3, 1) = ⟨⟨0, 3⟩, ⟨0, 1⟩⟩ ∧
    Span.columns ⟨⟨0, 3⟩, ⟨0, 1⟩⟩ = (3, 4) ∧
    render_label_group defaultNoColor
        ⟨[⟨"label_range_negative_length", some ⟨some "src/test.lm", "abc".data⟩, (3, 1), none⟩],
         ⟨some "src/test.lm", "abc".data⟩⟩ .error
      = "   ╭─[src/test.lm:1:4]\n 1 │ abc\n   ∶   label_range_negative_length\n   ╰──\n" ∧
    countChar '^'
      (render_label_group defaultNoColor
        ⟨[⟨"label_range_negative_length", some ⟨some "src/test.lm", "abc".data⟩, (3, 1), none⟩],
         ⟨some "src/test.lm", "abc".data⟩⟩ .error) = 0 := by
  refine ⟨by decide, by decide, by decide, by decide⟩

/-! ## C1: a reachable panic in suggestion styling -/

/-- C1: rendering panics on malformed suggestion content.  For the
`Replacement` suggestion with the out-of-bounds range `0..10` on the
3-character source `"abc"`, `style_suggestion_line` calls
`str::split_at(span.start + range.len()) = split_at(10)` on the 3-character
line, which panics (modelled by `none`); the panic propagates through
`render_help`/`render_footer`, so `render_diagnostic` with the default
renderer raises instead of returning — contradicting the no-panic claim. -/
theorem replacement_out_of_range_panics :
    style_suggestion_line GraphicalRenderer.new
        (.replacement ⟨⟨some "src/test.lm", "abc".data⟩, (0, 10)⟩ "x") "abc"
        (coords_of_span "abc".data (0, 10)) = none ∧
    renderDiagnostic GraphicalRenderer.new
        (.mk "m" .error none none none [] []
          (some [⟨"h", [.replacement ⟨⟨some "src/test.lm", "abc".data⟩, (0, 10)⟩ "x"]⟩]))
      = none := by
  exact ⟨rfl, rfl⟩

/-! ## C10 and C6: the indentation counter and determinism -/

mutual

theorem renderDiagnostic_state : ∀ (r r2 : GraphicalRenderer) (d : Diag) (out : String),
    renderDiagnostic r d = some (r2, out) → r2 = r
  | r, r2, .mk message severity code source_code labels causes related help, out, h => by
    rw [renderDiagnostic.eq_1] at h
    rcases h1 : renderSubDiags r causes with _ | p1
    · rw [h1] at h
      simp at h
    · rw [h1] at h
      obtain ⟨r1, causesOut⟩ := p1
      simp only [Option.bind_eq_bind, Option.some_bind] at h
      rcases h2 : renderSubDiags r1 related with _ | p2
      · rw [h2] at h
        simp at h
      · rw [h2] at h
        obtain ⟨r2x, relatedOut⟩ := p2
        simp only [Option.bind_eq_bind, Option.some_bind] at h
        rcases h3 : render_footer r2x
            (Diag.mk message severity code source_code labels causes related help)
          with _ | footer
        · rw [h3] at h
          simp at h
        · rw [h3] at h
          simp only [Option.bind_eq_bind, Option.some_bind, Option.pure_def,
            Option.some.injEq, Prod.mk.injEq] at h
          have e1 : r1 = r := renderSubDiags_state r r1 causes causesOut h1
          have e2 : r2x = r1 := renderSubDiags_state r1 r2x related relatedOut h2
          rw [← h.1, e2, e1]

theorem renderSubDiags_state : ∀ (r r2 : GraphicalRenderer) (l : List Diag) (out : String),
    renderSubDiags r l = some (r2, out) → r2 = r
  | r, r2, [], out, h => by
    rw [renderSubDiags.eq_1] at h
    simp only [Option.some.injEq, Prod.mk.injEq] at h
    exact h.1.symm
  | r, r2, c :: cs, out, h => by
    rw [renderSubDiags.eq_2] at h
    rcases h1 : renderDiagnostic { r with current_indent := r.current_indent + 1 } c
      with _ | p1
    · rw [h1] at h
      simp at h
    · rw [h1] at h
      obtain ⟨r2a, outa⟩ := p1
      simp only [Option.bind_eq_bind, Option.some_bind] at h
      rcases h2 : renderSubDiags { r2a with current_indent := r2a.current_indent - 1 } cs
        with _ | p2
      · rw [h2] at h
        simp at h
      · rw [h2] at h
        obtain ⟨r4, rest⟩ := p2
        simp only [Option.bind_eq_bind, Option.some_bind, Option.pure_def,
          Option.some.injEq, Prod.mk.injEq] at h
        have ha : r2a = { r with current_indent := r.current_indent + 1 } :=
          renderDiagnostic_state _ r2a c outa h1
        have hr3 : { r2a with current_indent := r2a.current_indent - 1 } = r := by
          subst ha
          simp
        rw [hr3] at h2
        have h4 : r4 = r := renderSubDiags_state r r4 cs rest h2
        rw [← h.1, h4]

end

/-- C10: whenever `render_diagnostic` returns successfully, the renderer's
`current_indent` equals its value before the call — every increment performed
for a cause or related sub-diagnostic is matched by a decrement on the
success path, so sequential reuse starts from the same indentation state. -/
theorem render_diagnostic_restores_indent (r r2 : GraphicalRenderer) (d : Diag)
    (out : String) (h : renderDiagnostic r d = some (r2, out)) :
    r2.current_indent = r.current_indent := by
  rw [renderDiagnostic_state r r2 d out h]

/-- C10 witness: the theorem applied to a concrete render. -/
theorem render_diagnostic_restores_indent_witness :
    defaultNoColor.current_indent = defaultNoColor.current_indent :=
  render_diagnostic_restores_indent defaultNoColor defaultNoColor
    (.mk "mismatched types" .error none none none [] [] none)
    "× error: mismatched types\n" rfl

/-- C6: with `useColors = false`, rendering the same diagnostic twice
sequentially on the same renderer instance produces byte-identical output: a
successful render returns the renderer to its starting state, so the second
call yields the very same state and output string. -/
theorem render_twice_identical (r r1 : GraphicalRenderer) (d : Diag) (out : String)
    (_hc : r.use_colors = false) (h : renderDiagnostic r d = some (r1, out)) :
    renderDiagnostic r1 d = some (r1, out) := by
  have e : r1 = r := renderDiagnostic_state r r1 d out h
  subst e
  exact h

/-- C6 witness: the theorem applied to a concrete render. -/
theorem render_twice_identical_witness :
    renderDiagnostic defaultNoColor
        (.mk "mismatched types" .error none none none [] [] none)
      = some (defaultNoColor, "× error: mismatched types\n") :=
  render_twice_identical defaultNoColor defaultNoColor
    (.mk "mismatched types" .error none none none [] [] none)
    "× error: mismatched types\n" rfl rfl
